import Mathlib

/-!
Verification of the onboarding route (`src/routes/onboarding.ts`) of the
gitpoap-backend repository.

The TypeScript source is shallowly embedded below: each pure helper of the
route becomes a Lean function with the same name, and the stateful parts
(the shared `foundRepoIds` dedup set threaded through the three repository
sources, and the intake-form submission pipeline with its external effects)
become explicit state passing.  Logging, metrics and the `rejectedRepoIds`
set (used only for a log line) are omitted; everything that influences the
response or the stores is modelled.
-/

/-! ## Data model: raw GitHub records and the canonical `Repo` -/

/-- Permissions as they appear on GitHub REST listing results and on the
canonical `Repo`: every field optional (`permissions?: \x7b admin?: boolean; ... \x7d`). -/
structure RawPermissions where
  admin : Option Bool
  maintain : Option Bool
  push : Option Bool
  triage : Option Bool
  pull : Option Bool
  deriving DecidableEq

/-- Owner of a repository in the REST listing shape (`repo.owner`). -/
structure RawOwner where
  id : Int
  type : String
  login : String
  avatar_url : String
  html_url : String
  deriving DecidableEq

/-- A repository record as returned by `repos.listForAuthenticatedUser` /
`repos.listForOrg` (the fields the route reads). -/
structure RawRepo where
  id : Int
  name : String
  full_name : String
  description : Option String
  html_url : String
  fork : Bool
  stargazers_count : Option Int
  owner : RawOwner
  permissions : Option RawPermissions
  deriving DecidableEq

/-- Owner of a repository in the GraphQL PR-search shape
(the `__typename` field is embedded as `typename`). -/
structure PrOwner where
  id : String
  typename : String
  avatarUrl : String
  login : String
  resourcePath : String
  deriving DecidableEq

/-- Shape of `pr.node.repository` in the GraphQL PR-search result. -/
structure PrRepository where
  name : String
  nameWithOwner : String
  viewerPermission : String
  databaseId : Int
  description : Option String
  url : String
  isFork : Bool
  stargazerCount : Int
  owner : PrOwner
  deriving DecidableEq

/-- Shape of `pr.node` in the GraphQL PR-search result. -/
structure PrNode where
  number : Int
  title : String
  repository : PrRepository
  deriving DecidableEq

/-- One edge of the PR search (`publicPrs.search.edges[i]`). -/
structure PrEdge where
  node : PrNode
  deriving DecidableEq

/-- Owner on the canonical `Repo`: `id: number | string`. -/
structure RepoOwner where
  id : Sum Int String
  type : String
  name : String
  avatar_url : String
  url : String
  deriving DecidableEq

/-- The canonical `Repo` record produced by all three adapters. -/
structure Repo where
  name : String
  full_name : String
  githubRepoId : Int
  description : Option String
  url : String
  owner : RepoOwner
  permissions : Option RawPermissions
  deriving DecidableEq

/-! ## RepoSourceAdapters -/

/-- Mirrors `getMappedOrgRepo`: normalize an organization-listing record. -/
def getMappedOrgRepo (repo : RawRepo) : Repo :=
  { name := repo.name
    full_name := repo.full_name
    githubRepoId := repo.id
    description := repo.description
    url := repo.html_url
    owner :=
      { id := Sum.inl repo.owner.id
        type := repo.owner.type
        name := repo.owner.login
        avatar_url := repo.owner.avatar_url
        url := repo.owner.html_url }
    permissions := repo.permissions }

/-- Mirrors `getMappedRepo`: normalize an authenticated-user-listing record. -/
def getMappedRepo (repo : RawRepo) : Repo :=
  { name := repo.name
    full_name := repo.full_name
    githubRepoId := repo.id
    description := repo.description
    url := repo.html_url
    owner :=
      { id := Sum.inl repo.owner.id
        type := repo.owner.type
        name := repo.owner.login
        avatar_url := repo.owner.avatar_url
        url := repo.owner.html_url }
    permissions := repo.permissions }

/-- Mirrors `getMappedPrRepo`: normalize a PR-search edge, turning the single
`viewerPermission` level string into the five permission booleans via
`Array.prototype.includes` checks, exactly as in the source. -/
def getMappedPrRepo (pr : PrEdge) : Repo :=
  { name := pr.node.repository.name
    full_name := pr.node.repository.nameWithOwner
    githubRepoId := pr.node.repository.databaseId
    description := pr.node.repository.description
    url := pr.node.repository.url
    owner :=
      { id := Sum.inr pr.node.repository.owner.id
        name := pr.node.repository.owner.login
        type := pr.node.repository.owner.typename
        avatar_url := pr.node.repository.owner.avatarUrl
        url := pr.node.repository.owner.resourcePath }
    permissions := some
      { admin := some (["ADMIN"].contains pr.node.repository.viewerPermission)
        maintain := some (["MAINTAIN", "ADMIN"].contains pr.node.repository.viewerPermission)
        push := some (["WRITE", "MAINTAIN", "ADMIN"].contains pr.node.repository.viewerPermission)
        triage := some
          (["TRIAGE", "WRITE", "MAINTAIN", "ADMIN"].contains pr.node.repository.viewerPermission)
        pull := some
          (["READ", "WRITE", "MAINTAIN", "ADMIN"].contains pr.node.repository.viewerPermission) } }

/-! ## RepoAggregator

The route builds one `foundRepoIds : Set<number>` and filters, in program
order, the PR edges, then the flattened organization listings, then the
personal listing; the returned array is
`[...mappedRepos, ...mappedOrgRepos, ...mappedPrRepos]`.
The `Set` is modelled as a `List Int` with `insertId` mirroring `Set.add`. -/

/-- Mirrors `foundRepoIds.add(id)`: a no-op when the id is already present. -/
def insertId (seen : List Int) (i : Int) : List Int :=
  if i ∈ seen then seen else i :: seen

/-- Shorthand for `repo.node.repository.databaseId`. -/
def prRepoId (e : PrEdge) : Int := e.node.repository.databaseId

/-- Mirrors `!repo.stargazers_count || repo.stargazers_count < 2`
(a missing or zero count is falsy in JS, hence also rejected). -/
def starsBelowTwo (repo : RawRepo) : Bool :=
  match repo.stargazers_count with
  | none => true
  | some n => decide (n < 2)

/-- Mirrors `repo.permissions?.admin || repo.permissions?.maintain || repo.permissions?.push`
with JS optional chaining: a missing object or field is falsy. -/
def hasPermission (repo : RawRepo) : Bool :=
  match repo.permissions with
  | none => false
  | some p => p.admin.getD false || p.maintain.getD false || p.push.getD false

/-- The stateful filter over PR-search edges (`uniquePrRepos`): a fork is
dropped without touching the dedup set; otherwise the id is looked up and
then added, and the edge is kept when it was not already present.
Returns the kept edges together with the final dedup set. -/
def filterPrEdges (seen : List Int) : List PrEdge → List PrEdge × List Int
  | [] => ([], seen)
  | e :: rest =>
    if e.node.repository.isFork then filterPrEdges seen rest
    else if e.node.repository.databaseId ∈ seen then
      filterPrEdges (insertId seen e.node.repository.databaseId) rest
    else
      (e :: (filterPrEdges (insertId seen e.node.repository.databaseId) rest).1,
        (filterPrEdges (insertId seen e.node.repository.databaseId) rest).2)

/-- The stateful filter shared by the organization and personal listings:
the id is looked up and added to the dedup set before any other check, then
duplicates, forks, low-star repositories and repositories without one of
admin/maintain/push are dropped, in that order. -/
def filterListedRepos (seen : List Int) : List RawRepo → List RawRepo × List Int
  | [] => ([], seen)
  | r :: rest =>
    if r.id ∈ seen then filterListedRepos (insertId seen r.id) rest
    else if r.fork then filterListedRepos (insertId seen r.id) rest
    else if starsBelowTwo r then filterListedRepos (insertId seen r.id) rest
    else if hasPermission r then
      (r :: (filterListedRepos (insertId seen r.id) rest).1,
        (filterListedRepos (insertId seen r.id) rest).2)
    else filterListedRepos (insertId seen r.id) rest

/-- Mirrors `orgsWithRepos.map(org => org.data).reduce((acc, repos) => [...acc, ...repos], [])`. -/
def orgFlatten (orgLists : List (List RawRepo)) : List RawRepo :=
  orgLists.foldl (· ++ ·) []

/-- The three mapped segments (`mappedRepos`, `mappedOrgRepos`,
`mappedPrRepos`), produced in the program's processing order:
PR edges first, then the flattened organization listings, then the
personal listing, all sharing one dedup set. -/
def aggregateParts (prEdges : List PrEdge) (personalRepos : List RawRepo)
    (orgLists : List (List RawRepo)) : List Repo × List Repo × List Repo :=
  ((filterListedRepos (filterListedRepos (filterPrEdges [] prEdges).2
      (orgFlatten orgLists)).2 personalRepos).1.map getMappedRepo,
    (filterListedRepos (filterPrEdges [] prEdges).2 (orgFlatten orgLists)).1.map getMappedOrgRepo,
    (filterPrEdges [] prEdges).1.map getMappedPrRepo)

/-- Mirrors `allRepos = [...mappedRepos, ...mappedOrgRepos, ...mappedPrRepos]`:
the response body of `GET /onboarding/github/repos` on success. -/
def aggregateRepos (prEdges : List PrEdge) (personalRepos : List RawRepo)
    (orgLists : List (List RawRepo)) : List Repo :=
  (aggregateParts prEdges personalRepos orgLists).1 ++
    (aggregateParts prEdges personalRepos orgLists).2.1 ++
    (aggregateParts prEdges personalRepos orgLists).2.2

/-! ## IntakeValidator / NotificationDispatcher data -/

/-- Permissions on an entry of the client-supplied `repos` JSON array
(shape used by `createIntakeFormDocForDynamo`: `admin`, `push`, `pull`
required, `maintain` and `triage` optional). -/
structure FormPermissions where
  admin : Bool
  maintain : Option Bool
  push : Bool
  triage : Option Bool
  pull : Bool
  deriving DecidableEq

/-- An entry of the parsed `formData.repos` array. -/
structure FormRepo where
  full_name : String
  githubRepoId : String
  permissions : FormPermissions
  deriving DecidableEq

/-- The validated intake form.  The source keeps `repos` as a JSON string
and re-parses it at each use; the embedding carries the parsed array (the
repos-schema validation stage guarantees the parse succeeds). -/
structure IntakeForm where
  name : Option String
  email : String
  notes : Option String
  githubHandle : String
  shouldGitPOAPDesign : String
  isOneGitPOAPPerRepo : String
  repos : List FormRepo
  deriving DecidableEq

/-- JS `full_name.split('/')` with a single-character separator. -/
def splitSlashAux (acc : List Char) : List Char → List String
  | [] => [String.mk acc.reverse]
  | c :: rest =>
    if c = '/' then String.mk acc.reverse :: splitSlashAux [] rest
    else splitSlashAux (c :: acc) rest

/-- JS `full_name.split('/')`. -/
def splitSlash (s : String) : List String :=
  splitSlashAux [] s.data

/-- JS `` `${full_name.split('/')[1]}` ``: interpolating the out-of-range
index produces the string "undefined". -/
def shortName (full_name : String) : String :=
  match (splitSlash full_name).get? 1 with
  | some s => s
  | none => "undefined"

/-- The loop body of `formatRepos`: `rest` is the part of the array after
index `i - 1` and `total` is `repos.length`, so the loop guard
`i < repos.length` is `rest ≠ []`. -/
def formatReposLoop (total : Nat) : List FormRepo → Nat → String → String
  | [], _, response => response
  | r :: rest, i, response =>
    if i + 1 = total then
      formatReposLoop total rest (i + 1) (response ++ ", and " ++ shortName r.full_name)
    else if i < 5 then
      formatReposLoop total rest (i + 1) (response ++ ", " ++ shortName r.full_name)
    else
      response ++ ", and " ++ toString (total - 5) ++ " more"

/-- Mirrors `formatRepos`: reads `repos[0].full_name` unconditionally, which throws
on an empty array — embedded as `none`. -/
def formatRepos (repos : List FormRepo) : Option String :=
  match repos with
  | [] => none
  | r :: rest => some (formatReposLoop repos.length rest 1 (shortName r.full_name))

/-! ## IntakeSubmissionPipeline

`POST /intake-form` is embedded as a function of the request (form, files,
timestamp), an environment of success/failure oracles for the external
collaborators (DynamoDB, S3, Postmark), and the initial record store.  It
returns the HTTP result together with the final world state (record store,
attempted S3 uploads, dispatched emails). -/

/-- A multipart image attachment (payload opaque to the route). -/
structure ImageFile where
  content : String
  deriving DecidableEq

/-- A row of the DynamoDB intake-form table.  A freshly put item carries no
`images` attribute (`images := none`); the later `UpdateItemCommand` sets it. -/
structure IntakeRecord where
  key : String
  timestamp : Int
  name : String
  email : String
  notes : String
  githubHandle : String
  shouldGitPOAPDesign : Bool
  isOneGitPOAPPerRepo : Bool
  repos : List FormRepo
  images : Option (List String)
  isComplete : Bool
  deriving DecidableEq

/-- JS `Boolean(s)` on a string: only the empty string is falsy. -/
def jsTruthy (s : String) : Bool := s ≠ ""

/-- Mirrors `createIntakeFormDocForDynamo`: the item put in stage 2, keyed by
`email-githubHandle` plus the timestamp, with `isComplete = false` and no
`images` attribute. -/
def createIntakeFormDocForDynamo (formData : IntakeForm) (timestamp : Int) : IntakeRecord :=
  { key := formData.email ++ "-" ++ formData.githubHandle
    timestamp := timestamp
    name := formData.name.getD ""
    email := formData.email
    notes := formData.notes.getD ""
    githubHandle := formData.githubHandle
    shouldGitPOAPDesign := jsTruthy formData.shouldGitPOAPDesign
    isOneGitPOAPPerRepo := jsTruthy formData.isOneGitPOAPPerRepo
    repos := formData.repos
    images := none
    isComplete := false }

/-- DynamoDB `PutItemCommand`: replaces the item with the same full key,
otherwise appends it. -/
def putRecord (store : List IntakeRecord) (item : IntakeRecord) : List IntakeRecord :=
  if store.any (fun r => r.key == item.key && r.timestamp == item.timestamp) then
    store.map (fun r =>
      if r.key == item.key && r.timestamp == item.timestamp then item else r)
  else store ++ [item]

/-- DynamoDB `UpdateItemCommand` built by `createUpdateItemParamsForImages`:
`set images = :images` on the item with the given key. -/
def updateRecordImages (store : List IntakeRecord) (key : String) (timestamp : Int)
    (imageUrls : List String) : List IntakeRecord :=
  store.map (fun r =>
    if r.key == key && r.timestamp == timestamp then { r with images := some imageUrls } else r)

/-- The `ScanCommand` with `Select: COUNT` and `isComplete = false`. -/
def countIncomplete (store : List IntakeRecord) : Nat :=
  (store.filter (fun r => !r.isComplete)).length

/-- The S3 object key `` `${unixTime}-${githubHandle}-${email}-${index}` ``. -/
def s3Key (unixTime : Int) (githubHandle email : String) (index : Nat) : String :=
  toString unixTime ++ "-" ++ githubHandle ++ "-" ++ email ++ "-" ++ toString index

/-- Mirrors `getS3URL(bucket, key)` (external collaborator, modelled as bucket/key). -/
def getS3URL (bucket key : String) : String :=
  bucket ++ "/" ++ key

/-- The S3 bucket `s3configProfile.buckets.intakeForm`. -/
def intakeFormBucket : String := "intake-form"

/-- Success/failure oracles for the external collaborators touched by one
`POST /intake-form` request, plus the outcomes of the three validations. -/
structure Env where
  schemaOk : Bool
  reposSchemaOk : Bool
  imageSchemaOk : Bool
  putItemOk : Bool
  uploadOk : Nat → Bool
  updateItemOk : Bool
  scanOk : Bool
  confirmEmailOk : Bool
  internalEmailOk : Bool

/-- Observable effects of one request. -/
structure World where
  store : List IntakeRecord
  uploadAttempts : List Nat
  uploadedUrls : List String
  emailsSent : List String
  deriving DecidableEq

/-- The HTTP outcome of `POST /intake-form`: 400 with schema issues, 400
with a message, or 200 with the (possibly undefined) queue number. -/
inductive ApiResult where
  | issues (stage : String)
  | failure (msg : String)
  | success (queueNumber : Option Nat) (msg : String)
  deriving DecidableEq

/-- HTTP status of an `ApiResult`. -/
def ApiResult.status : ApiResult → Nat
  | .issues _ => 400
  | .failure _ => 400
  | .success _ _ => 200

/-- The sequential S3 upload loop: each image is uploaded one at a time,
pushing its URL; the first failure stops the loop.  Returns the attempted
indices, the collected URLs, and whether every upload succeeded. -/
def uploadImagesLoop (env : Env) (form : IntakeForm) (unixTime : Int) :
    List ImageFile → Nat → List Nat × List String × Bool
  | [], _ => ([], [], true)
  | _ :: rest, index =>
    if env.uploadOk index then
      (index :: (uploadImagesLoop env form unixTime rest (index + 1)).1,
        getS3URL intakeFormBucket (s3Key unixTime form.githubHandle form.email index) ::
          (uploadImagesLoop env form unixTime rest (index + 1)).2.1,
        (uploadImagesLoop env form unixTime rest (index + 1)).2.2)
    else ([index], [], false)

/-- The fields of the Postmark `welcome-1` template model. -/
structure TemplateModel where
  product_url : String
  product_name : String
  queue_number : String
  name : Option String
  email : String
  githubHandle : String
  shouldGitPOAPDesign : String
  isOneGitPOAPPerRepo : String
  notes : Option String
  repos : String
  support_email : String
  company_name : String
  company_address : String
  sender_name : String
  help_url : String
  deriving DecidableEq

/-- Mirrors `sendConfirmationEmail`: building the template model calls
`formatRepos`, so the rendering throws — yields `none` — exactly when
`formatRepos` does. -/
def renderConfirmationEmail (formData : IntakeForm) (queueNumber : Option Nat) :
    Option TemplateModel :=
  match formatRepos formData.repos with
  | none => none
  | some reposStr => some
    { product_url := "gitpoap.io"
      product_name := "GitPOAP"
      queue_number := match queueNumber with | some n => toString n | none => ""
      name := formData.name
      email := formData.email
      githubHandle := formData.githubHandle
      shouldGitPOAPDesign := if formData.shouldGitPOAPDesign = "true" then "GitPOAP" else "You"
      isOneGitPOAPPerRepo :=
        if formData.isOneGitPOAPPerRepo = "true" then "One Per Repo" else "One For All"
      notes := formData.notes
      repos := reposStr
      support_email := "team@gitpoap.io"
      company_name := "MetaRep Labs Inc"
      company_address := "One Broadway, Cambridge MA 02142"
      sender_name := "GitPOAP Team"
      help_url := "https://docs.gitpoap.io" }

/-- The tail of the handler: one `try` block that scans for the incomplete
count and then dispatches both emails.  A scan failure jumps to the `catch`
with `tableCount` still undefined, so neither email is sent; an email
failure is caught after `tableCount` was set.  Either way the handler falls
through to the 200 response carrying `tableCount`. -/
def finishPipeline (env : Env) (form : IntakeForm) (w : World) : ApiResult × World :=
  if !env.scanOk then
    (ApiResult.success none "Successfully submitted intake form", w)
  else
    if env.confirmEmailOk ∧ (renderConfirmationEmail form (some (countIncomplete w.store))).isSome
    then
      if env.internalEmailOk then
        (ApiResult.success (some (countIncomplete w.store)) "Successfully submitted intake form",
          { w with emailsSent := w.emailsSent ++ ["confirmation", "internal"] })
      else
        (ApiResult.success (some (countIncomplete w.store)) "Successfully submitted intake form",
          { w with emailsSent := w.emailsSent ++ ["confirmation"] })
    else
      (ApiResult.success (some (countIncomplete w.store)) "Successfully submitted intake form", w)

/-- Handler of `POST /intake-form`: validations, stage-2 persist, sequential image
uploads with the image-URL patch, then the best-effort queue-count/email
tail, mirroring the route's early returns. -/
def intakeFormHandler (env : Env) (form : IntakeForm) (files : List ImageFile)
    (unixTime : Int) (store0 : List IntakeRecord) : ApiResult × World :=
  let w0 : World := { store := store0, uploadAttempts := [], uploadedUrls := [], emailsSent := [] }
  if !env.schemaOk then (ApiResult.issues "form", w0)
  else if !env.reposSchemaOk then (ApiResult.issues "repos", w0)
  else if !env.imageSchemaOk then (ApiResult.issues "images", w0)
  else if !env.putItemOk then (ApiResult.failure "Failed to submit intake form", w0)
  else
    let record := createIntakeFormDocForDynamo form unixTime
    let w1 : World := { w0 with store := putRecord store0 record }
    if files.length > 0 then
      let res := uploadImagesLoop env form unixTime files 0
      let w2 : World := { w1 with uploadAttempts := res.1, uploadedUrls := res.2.1 }
      if !res.2.2 then (ApiResult.failure "Failed to submit intake form assets to S3", w2)
      else if !env.updateItemOk then
        (ApiResult.failure "Failed to submit image URLs to DynamoDB", w2)
      else
        finishPipeline env form
          { w2 with store := updateRecordImages w2.store record.key unixTime res.2.1 }
    else finishPipeline env form w1

/-! ## Concrete records used by counterexamples and witnesses -/

/-- A PR-search edge whose repository grants the viewer the TRIAGE level. -/
def triagePrEdge : PrEdge :=
  { node :=
    { number := 1
      title := "fix"
      repository :=
        { name := "repo"
          nameWithOwner := "owner/repo"
          viewerPermission := "TRIAGE"
          databaseId := 42
          description := none
          url := "https://github.com/owner/repo"
          isFork := false
          stargazerCount := 3
          owner := ⟨"MDQ6", "Organization", "a.png", "owner", "/owner"⟩ } } }

/-! ## C3: the repo-name-list formatter -/

/-- A "comma-joined" list, as the claim words it. -/
def commaJoin : List String → String
  | [] => ""
  | [a] => a
  | a :: rest => a ++ ", " ++ commaJoin rest

/-- Comma-joined with the final item prefixed by "and ", as the claim words
the 2-to-6-item case. -/
def joinAnd : List String → String
  | [] => ""
  | [a] => a
  | [a, b] => a ++ ", and " ++ b
  | a :: rest => a ++ ", " ++ joinAnd rest

/-- The repository-name portion of `full_name`. -/
def shortNameOf (r : FormRepo) : String := shortName r.full_name

/-- Modelled from the amended claim: for up to 6 items every item after the
first is comma-joined and the final one is prefixed by "and "; for more
than 6 items the first five are comma-joined and `", and K more"` follows,
with `K = total - 5`; the empty list is undefined. -/
def formatReposSpec (repos : List FormRepo) : Option String :=
  match repos with
  | [] => none
  | _ =>
    if repos.length ≤ 6 then some (joinAnd (repos.map shortNameOf))
    else some (commaJoin ((repos.map shortNameOf).take 5) ++ ", and " ++
      toString (repos.length - 5) ++ " more")

/-- A list of six selected repositories with short names a ... f. -/
def sixFormRepos : List FormRepo :=
  ["o/a", "o/b", "o/c", "o/d", "o/e", "o/f"].map
    (fun s => { full_name := s, githubRepoId := "1",
                permissions := ⟨true, none, true, none, true⟩ })

/-- Suffix rendered by the loop when the whole list fits (at most 6). -/
def tailJoin : List String → String
  | [] => ""
  | [a] => ", and " ++ a
  | a :: rest => ", " ++ a ++ tailJoin rest

/-- Suffix rendered by the loop for the comma-only section. -/
def commaTail : List String → String
  | [] => ""
  | a :: rest => ", " ++ a ++ commaTail rest

/-- A personal-listing record with id 7 that passes every filter. -/
def personalDupRepo : RawRepo :=
  { id := 7
    name := "shared"
    full_name := "user/shared"
    description := none
    html_url := "https://github.com/user/shared"
    fork := false
    stargazers_count := some 10
    owner := ⟨1, "User", "user", "user.png", "https://github.com/user"⟩
    permissions := some ⟨some true, some false, some true, some false, some true⟩ }

/-- An organization-listing record with the same id 7, also passing every
filter, but with different payload fields. -/
def orgDupRepo : RawRepo :=
  { id := 7
    name := "shared"
    full_name := "acme/shared"
    description := some "org copy"
    html_url := "https://github.com/acme/shared"
    fork := false
    stargazers_count := some 10
    owner := ⟨2, "Organization", "acme", "acme.png", "https://github.com/acme"⟩
    permissions := some ⟨some true, some false, some true, some false, some true⟩ }

/-- A non-fork PR-search record with zero stars and only the READ level. -/
def readOnlyPrEdge : PrEdge :=
  { node :=
    { number := 2
      title := "docs"
      repository :=
        { name := "tiny"
          nameWithOwner := "owner/tiny"
          viewerPermission := "READ"
          databaseId := 9
          description := none
          url := "https://github.com/owner/tiny"
          isFork := false
          stargazerCount := 0
          owner := ⟨"MDQ7", "User", "o.png", "owner", "/owner"⟩ } } }

/-- An organization-listing record with id 5 rejected for being a fork. -/
def forkOrgRepo : RawRepo :=
  { id := 5
    name := "lib"
    full_name := "acme/lib"
    description := none
    html_url := "https://github.com/acme/lib"
    fork := true
    stargazers_count := some 50
    owner := ⟨2, "Organization", "acme", "acme.png", "https://github.com/acme"⟩
    permissions := some ⟨some true, some false, some true, some false, some true⟩ }

/-- A personal-listing record with the same id 5 that passes every filter. -/
def passingPersonalRepo : RawRepo :=
  { id := 5
    name := "lib"
    full_name := "user/lib"
    description := none
    html_url := "https://github.com/user/lib"
    fork := false
    stargazers_count := some 50
    owner := ⟨1, "User", "user", "user.png", "https://github.com/user"⟩
    permissions := some ⟨some true, some false, some true, some false, some true⟩ }

/-- A concrete valid intake form with one selected repository. -/
def cForm : IntakeForm :=
  { name := some "Nat"
    email := "nat@example.com"
    notes := none
    githubHandle := "nat"
    shouldGitPOAPDesign := "true"
    isOneGitPOAPPerRepo := "false"
    repos := [{ full_name := "nat/widget", githubRepoId := "77",
                permissions := ⟨true, none, true, none, true⟩ }] }

/-- An environment in which every external call succeeds. -/
def envAll : Env :=
  { schemaOk := true
    reposSchemaOk := true
    imageSchemaOk := true
    putItemOk := true
    uploadOk := fun _ => true
    updateItemOk := true
    scanOk := true
    confirmEmailOk := true
    internalEmailOk := true }

/-- Everything succeeds except the queue-number scan. -/
def env4 : Env := { envAll with scanOk := false }

/-- Everything succeeds except that uploads fail from index 2 on. -/
def env7 : Env := { envAll with uploadOk := fun i => decide (i < 2) }

/-- A concrete image attachment. -/
def imgFile : ImageFile := ⟨"png-bytes"⟩

/-! ## Theorems -/

/-- C1 (code bug, failing input).  On a PR-search record with permission
level `TRIAGE`, `getMappedPrRepo` produces `triage = true` but
`pull = false`: the `pull` membership list omits `'TRIAGE'`, so the level
is not mapped cumulatively, contradicting the claim's tier table (TRIAGE
sets triage *and* pull) and the cumulative pattern of the four sibling
lines. -/
theorem getMappedPrRepo_triage_pull_false :
    (getMappedPrRepo triagePrEdge).permissions =
      some { admin := some false, maintain := some false, push := some false,
             triage := some true, pull := some false } := by
  decide

/-- C3 (counterexample).  On exactly six items the formatter lists all six
names — the `i + 1 === repos.length` branch wins over the `i < 5` cutoff —
instead of the claimed "first five, and 1 more". -/
theorem formatRepos_six_items_cex :
    formatRepos sixFormRepos = some "a, b, c, d, e, and f" ∧
      ("a, b, c, d, e, and f" : String) ≠ "a, b, c, d, e, and 1 more" := by
  exact ⟨by decide, by decide⟩

/-! ## C10: the formatter on the empty list, and email rendering -/

/-- C10.  `formatRepos` reads `repos[0].full_name` unconditionally, so it
throws (is `none`) exactly on the empty list; consequently rendering the
confirmation email succeeds exactly when the submission's selected-repository
list is non-empty. -/
theorem confirmation_email_requires_nonempty_repos (form : IntakeForm)
    (queueNumber : Option Nat) :
    (formatRepos form.repos = none ↔ form.repos = []) ∧
      ((renderConfirmationEmail form queueNumber).isSome ↔ form.repos ≠ []) := by
  cases h : form.repos with
  | nil => simp [formatRepos, renderConfirmationEmail, h]
  | cons r rest => simp [formatRepos, renderConfirmationEmail, h]

theorem joinAnd_eq_tailJoin (a : String) (l : List String) :
    joinAnd (a :: l) = a ++ tailJoin l := by
  induction l generalizing a with
  | nil => simp [joinAnd, tailJoin, String.append_empty]
  | cons b m ih =>
    cases m with
    | nil => simp [joinAnd, tailJoin, String.append_assoc]
    | cons c m' =>
      rw [show joinAnd (a :: b :: c :: m') = a ++ ", " ++ joinAnd (b :: c :: m') from rfl]
      rw [ih b]
      rw [show tailJoin (b :: c :: m') = ", " ++ b ++ tailJoin (c :: m') from rfl]
      simp [String.append_assoc]

theorem commaJoin_eq_commaTail (a : String) (l : List String) :
    commaJoin (a :: l) = a ++ commaTail l := by
  induction l generalizing a with
  | nil => simp [commaJoin, commaTail, String.append_empty]
  | cons b m ih =>
    rw [show commaJoin (a :: b :: m) = a ++ ", " ++ commaJoin (b :: m) from rfl]
    rw [ih b]
    rw [show commaTail (b :: m) = ", " ++ b ++ commaTail m from rfl]
    simp [String.append_assoc]

theorem formatReposLoop_small (rest : List FormRepo) :
    ∀ (i : Nat) (acc : String) (total : Nat), total = i + rest.length → total ≤ 6 →
      formatReposLoop total rest i acc = acc ++ tailJoin (rest.map shortNameOf) := by
  induction rest with
  | nil =>
    intro i acc total _ _
    simp [formatReposLoop, tailJoin, String.append_empty]
  | cons r rest₂ ih =>
    intro i acc total htot hle
    rw [formatReposLoop]
    split_ifs with h1 h2
    · have h0 : rest₂.length = 0 := by simp at htot; omega
      have h0' : rest₂ = [] := List.length_eq_zero.mp h0
      subst h0'
      rw [formatReposLoop]
      simp [tailJoin, shortNameOf, String.append_assoc]
    · have hne : rest₂ ≠ [] := by
        intro hemp; subst hemp; simp at htot; omega
      obtain ⟨b, m, rfl⟩ := List.exists_cons_of_ne_nil hne
      rw [ih (i + 1) _ total (by simp at htot ⊢; omega) hle]
      simp only [List.map_cons]
      rw [show tailJoin (shortNameOf r :: shortNameOf b :: List.map shortNameOf m) =
        ", " ++ shortNameOf r ++ tailJoin (shortNameOf b :: List.map shortNameOf m) from rfl]
      simp [shortNameOf, String.append_assoc]
    · exfalso
      simp at htot
      omega

theorem formatReposLoop_large (rest : List FormRepo) :
    ∀ (i : Nat) (acc : String) (total : Nat), total = i + rest.length → 7 ≤ total → i ≤ 5 →
      formatReposLoop total rest i acc =
        acc ++ commaTail ((rest.take (5 - i)).map shortNameOf) ++ ", and " ++
          toString (total - 5) ++ " more" := by
  induction rest with
  | nil =>
    intro i acc total htot h7 hi
    exfalso; simp at htot; omega
  | cons r rest₂ ih =>
    intro i acc total htot h7 hi
    rw [formatReposLoop]
    split_ifs with h1 h2
    · exfalso; simp at htot; omega
    · have htake : 5 - i = (5 - (i + 1)) + 1 := by omega
      rw [htake, List.take_succ_cons]
      rw [ih (i + 1) _ total (by simp at htot ⊢; omega) h7 (by omega)]
      rw [show List.map shortNameOf (r :: rest₂.take (5 - (i + 1))) =
        shortNameOf r :: List.map shortNameOf (rest₂.take (5 - (i + 1))) from rfl]
      rw [show commaTail (shortNameOf r :: List.map shortNameOf (rest₂.take (5 - (i + 1)))) =
        ", " ++ shortNameOf r ++ commaTail (List.map shortNameOf (rest₂.take (5 - (i + 1)))) from rfl]
      simp [shortNameOf, String.append_assoc]
    · have hieq : i = 5 := by omega
      subst hieq
      simp [commaTail, String.append_empty]

/-- Unfolding equation of `formatRepos` on a non-empty list. -/
theorem formatRepos_cons (r : FormRepo) (rest : List FormRepo) :
    formatRepos (r :: rest) =
      some (formatReposLoop (r :: rest).length rest 1 (shortName r.full_name)) := rfl

theorem formatReposSpec_cons (r : FormRepo) (rest : List FormRepo) :
    formatReposSpec (r :: rest) =
      if (r :: rest).length ≤ 6 then some (joinAnd ((r :: rest).map shortNameOf))
      else some (commaJoin (((r :: rest).map shortNameOf).take 5) ++ ", and " ++
        toString ((r :: rest).length - 5) ++ " more") := rfl

/-- C3 (amended): the formatter agrees with the amended specification. -/
theorem formatRepos_eq_spec_amended (repos : List FormRepo) :
    formatRepos repos = formatReposSpec repos := by
  cases repos with
  | nil => rfl
  | cons r rest =>
    by_cases h : (r :: rest).length ≤ 6
    · rw [formatRepos_cons, formatReposSpec_cons]
      simp only [h, if_true]
      rw [formatReposLoop_small rest 1 _ _ (by simp [Nat.add_comm]) (by simpa using h)]
      simp only [List.map_cons]
      rw [joinAnd_eq_tailJoin]
      rfl
    · rw [formatRepos_cons, formatReposSpec_cons]
      simp only [h, if_false]
      rw [formatReposLoop_large rest 1 _ _ (by simp [Nat.add_comm]) (by simp at h ⊢; omega)
        (by omega)]
      simp only [List.map_cons]
      rw [show (shortNameOf r :: List.map shortNameOf rest).take 5 =
        shortNameOf r :: (List.map shortNameOf rest).take 4 from rfl]
      rw [← List.map_take]
      rw [commaJoin_eq_commaTail]
      simp [shortNameOf, String.append_assoc]

/-! ## Aggregator lemmas: the dedup set and the three filters -/

theorem mem_insertId (seen : List Int) (i x : Int) :
    x ∈ insertId seen i ↔ x = i ∨ x ∈ seen := by
  unfold insertId
  split_ifs with h
  · constructor
    · exact fun hx => Or.inr hx
    · rintro (rfl | hx)
      · exact h
      · exact hx
  · simp [List.mem_cons]

theorem filterPrEdges_seen_mem (l : List PrEdge) :
    ∀ (seen : List Int) (x : Int),
      x ∈ (filterPrEdges seen l).2 ↔
        x ∈ seen ∨ ∃ e ∈ l, e.node.repository.isFork = false ∧
          e.node.repository.databaseId = x := by
  induction l with
  | nil => intro seen x; simp [filterPrEdges]
  | cons e rest ih =>
    intro seen x
    rw [filterPrEdges]
    split_ifs with h1 h2
    · rw [ih]
      simp [List.exists_mem_cons_iff, h1]
    · rw [ih]
      have hf : e.node.repository.isFork = false := by simpa using h1
      simp only [mem_insertId, List.exists_mem_cons_iff, hf, true_and, eq_self_iff_true]
      constructor
      · rintro ((rfl | hx) | hr)
        · exact Or.inr (Or.inl rfl)
        · exact Or.inl hx
        · exact Or.inr (Or.inr hr)
      · rintro (hx | (rfl | hr))
        · exact Or.inl (Or.inr hx)
        · exact Or.inl (Or.inl rfl)
        · exact Or.inr hr
    · show x ∈ (filterPrEdges (insertId seen e.node.repository.databaseId) rest).2 ↔ _
      rw [ih]
      have hf : e.node.repository.isFork = false := by simpa using h1
      simp only [mem_insertId, List.exists_mem_cons_iff, hf, true_and, eq_self_iff_true]
      constructor
      · rintro ((rfl | hx) | hr)
        · exact Or.inr (Or.inl rfl)
        · exact Or.inl hx
        · exact Or.inr (Or.inr hr)
      · rintro (hx | (rfl | hr))
        · exact Or.inl (Or.inr hx)
        · exact Or.inl (Or.inl rfl)
        · exact Or.inr hr

theorem filterPrEdges_kept_sub (l : List PrEdge) :
    ∀ (seen : List Int) (e : PrEdge), e ∈ (filterPrEdges seen l).1 →
      e ∈ l ∧ e.node.repository.isFork = false := by
  induction l with
  | nil => intro seen e he; simp [filterPrEdges] at he
  | cons a rest ih =>
    intro seen e he
    rw [filterPrEdges] at he
    split_ifs at he with h1 h2
    · obtain ⟨hm, hf⟩ := ih seen e he
      exact ⟨List.mem_cons_of_mem a hm, hf⟩
    · obtain ⟨hm, hf⟩ := ih _ e he
      exact ⟨List.mem_cons_of_mem a hm, hf⟩
    · rcases List.mem_cons.mp he with rfl | hm
      · exact ⟨List.mem_cons_self _ _, by simpa using h1⟩
      · obtain ⟨hm', hf⟩ := ih _ e hm
        exact ⟨List.mem_cons_of_mem _ hm', hf⟩

theorem filterPrEdges_kept_not_seen (l : List PrEdge) :
    ∀ (seen : List Int) (e : PrEdge), e ∈ (filterPrEdges seen l).1 →
      e.node.repository.databaseId ∉ seen := by
  induction l with
  | nil => intro seen e he; simp [filterPrEdges] at he
  | cons a rest ih =>
    intro seen e he
    rw [filterPrEdges] at he
    split_ifs at he with h1 h2
    · exact ih seen e he
    · intro hx
      exact ih _ e he ((mem_insertId _ _ _).mpr (Or.inr hx))
    · rcases List.mem_cons.mp he with rfl | hm
      · exact h2
      · intro hx
        exact ih _ e hm ((mem_insertId _ _ _).mpr (Or.inr hx))

theorem filterPrEdges_kept_nodup (l : List PrEdge) :
    ∀ (seen : List Int), ((filterPrEdges seen l).1.map prRepoId).Nodup := by
  induction l with
  | nil => intro seen; simp [filterPrEdges]
  | cons a rest ih =>
    intro seen
    rw [filterPrEdges]
    split_ifs with h1 h2
    · exact ih seen
    · exact ih _
    · show ((a :: (filterPrEdges _ rest).1).map prRepoId).Nodup
      rw [List.map_cons, List.nodup_cons]
      refine ⟨fun hmem => ?_, ih _⟩
      obtain ⟨e, he, heq⟩ := List.mem_map.mp hmem
      have := filterPrEdges_kept_not_seen rest _ e he
      exact this ((mem_insertId _ _ _).mpr (Or.inl heq))

theorem filterPrEdges_kept_in_seen (l : List PrEdge) (seen : List Int) (e : PrEdge)
    (he : e ∈ (filterPrEdges seen l).1) :
    e.node.repository.databaseId ∈ (filterPrEdges seen l).2 := by
  obtain ⟨hm, hf⟩ := filterPrEdges_kept_sub l seen e he
  exact (filterPrEdges_seen_mem l seen _).mpr (Or.inr ⟨e, hm, hf, rfl⟩)

theorem filterPrEdges_first_kept (l1 : List PrEdge) :
    ∀ (seen : List Int) (e : PrEdge) (l2 : List PrEdge),
      e.node.repository.isFork = false →
      e.node.repository.databaseId ∉ seen →
      (∀ e' ∈ l1, e'.node.repository.isFork = false →
        e'.node.repository.databaseId ≠ e.node.repository.databaseId) →
      e ∈ (filterPrEdges seen (l1 ++ e :: l2)).1 := by
  induction l1 with
  | nil =>
    intro seen e l2 hf hn _
    rw [List.nil_append, filterPrEdges, if_neg (by simp [hf]), if_neg hn]
    exact List.mem_cons_self _ _
  | cons a l1' ih =>
    intro seen e l2 hf hn hfresh
    rw [List.cons_append, filterPrEdges]
    split_ifs with h1 h2
    · exact ih seen e l2 hf hn fun e' h' => hfresh e' (List.mem_cons_of_mem a h')
    · refine ih _ e l2 hf ?_ fun e' h' => hfresh e' (List.mem_cons_of_mem a h')
      intro hx
      rcases (mem_insertId _ _ _).mp hx with heq | hx'
      · exact hfresh a (List.mem_cons_self a l1') (by simpa using h1) heq.symm
      · exact hn hx'
    · refine List.mem_cons_of_mem a (ih _ e l2 hf ?_ fun e' h' => hfresh e' (List.mem_cons_of_mem a h'))
      intro hx
      rcases (mem_insertId _ _ _).mp hx with heq | hx'
      · exact hfresh a (List.mem_cons_self a l1') (by simpa using h1) heq.symm
      · exact hn hx'

theorem filterListedRepos_seen_mem (l : List RawRepo) :
    ∀ (seen : List Int) (x : Int),
      x ∈ (filterListedRepos seen l).2 ↔ x ∈ seen ∨ ∃ r ∈ l, r.id = x := by
  induction l with
  | nil => intro seen x; simp [filterListedRepos]
  | cons a rest ih =>
    intro seen x
    have key : ∀ R : Prop,
        ((x = a.id ∨ x ∈ seen) ∨ R) ↔ (x ∈ seen ∨ (a.id = x ∨ R)) := by
      intro R
      constructor
      · rintro ((rfl | hx) | hr)
        · exact Or.inr (Or.inl rfl)
        · exact Or.inl hx
        · exact Or.inr (Or.inr hr)
      · rintro (hx | (rfl | hr))
        · exact Or.inl (Or.inr hx)
        · exact Or.inl (Or.inl rfl)
        · exact Or.inr hr
    rw [filterListedRepos]
    split_ifs with h1 h2 h3 h4
    · rw [ih]
      simp only [mem_insertId, List.exists_mem_cons_iff]
      exact key _
    · rw [ih]
      simp only [mem_insertId, List.exists_mem_cons_iff]
      exact key _
    · rw [ih]
      simp only [mem_insertId, List.exists_mem_cons_iff]
      exact key _
    · show x ∈ (filterListedRepos (insertId seen a.id) rest).2 ↔ _
      rw [ih]
      simp only [mem_insertId, List.exists_mem_cons_iff]
      exact key _
    · rw [ih]
      simp only [mem_insertId, List.exists_mem_cons_iff]
      exact key _

theorem filterListedRepos_kept_sub (l : List RawRepo) :
    ∀ (seen : List Int) (r : RawRepo), r ∈ (filterListedRepos seen l).1 →
      r ∈ l ∧ r.fork = false ∧ starsBelowTwo r = false ∧ hasPermission r = true := by
  induction l with
  | nil => intro seen r hr; simp [filterListedRepos] at hr
  | cons a rest ih =>
    intro seen r hr
    rw [filterListedRepos] at hr
    split_ifs at hr with h1 h2 h3 h4
    · obtain ⟨hm, hrest⟩ := ih _ r hr
      exact ⟨List.mem_cons_of_mem _ hm, hrest⟩
    · obtain ⟨hm, hrest⟩ := ih _ r hr
      exact ⟨List.mem_cons_of_mem _ hm, hrest⟩
    · obtain ⟨hm, hrest⟩ := ih _ r hr
      exact ⟨List.mem_cons_of_mem _ hm, hrest⟩
    · rcases List.mem_cons.mp hr with rfl | hm
      · exact ⟨List.mem_cons_self _ _, by simpa using h2, by simpa using h3, h4⟩
      · obtain ⟨hm', hrest⟩ := ih _ r hm
        exact ⟨List.mem_cons_of_mem _ hm', hrest⟩
    · obtain ⟨hm, hrest⟩ := ih _ r hr
      exact ⟨List.mem_cons_of_mem _ hm, hrest⟩

theorem filterListedRepos_kept_not_seen (l : List RawRepo) :
    ∀ (seen : List Int) (r : RawRepo), r ∈ (filterListedRepos seen l).1 →
      r.id ∉ seen := by
  induction l with
  | nil => intro seen r hr; simp [filterListedRepos] at hr
  | cons a rest ih =>
    intro seen r hr
    rw [filterListedRepos] at hr
    split_ifs at hr with h1 h2 h3 h4
    · exact fun hx => ih _ r hr ((mem_insertId _ _ _).mpr (Or.inr hx))
    · exact fun hx => ih _ r hr ((mem_insertId _ _ _).mpr (Or.inr hx))
    · exact fun hx => ih _ r hr ((mem_insertId _ _ _).mpr (Or.inr hx))
    · rcases List.mem_cons.mp hr with rfl | hm
      · exact h1
      · exact fun hx => ih _ r hm ((mem_insertId _ _ _).mpr (Or.inr hx))
    · exact fun hx => ih _ r hr ((mem_insertId _ _ _).mpr (Or.inr hx))

theorem filterListedRepos_kept_nodup (l : List RawRepo) :
    ∀ (seen : List Int), (((filterListedRepos seen l).1.map (fun r => r.id)).Nodup) := by
  induction l with
  | nil => intro seen; simp [filterListedRepos]
  | cons a rest ih =>
    intro seen
    rw [filterListedRepos]
    split_ifs with h1 h2 h3 h4
    · exact ih _
    · exact ih _
    · exact ih _
    · show ((a :: (filterListedRepos _ rest).1).map _).Nodup
      rw [List.map_cons, List.nodup_cons]
      refine ⟨fun hmem => ?_, ih _⟩
      obtain ⟨r, hrm, heq⟩ := List.mem_map.mp hmem
      have := filterListedRepos_kept_not_seen rest _ r hrm
      exact this ((mem_insertId _ _ _).mpr (Or.inl heq))
    · exact ih _

theorem filterListedRepos_kept_in_seen (l : List RawRepo) (seen : List Int) (r : RawRepo)
    (hr : r ∈ (filterListedRepos seen l).1) :
    r.id ∈ (filterListedRepos seen l).2 := by
  obtain ⟨hm, _⟩ := filterListedRepos_kept_sub l seen r hr
  exact (filterListedRepos_seen_mem l seen _).mpr (Or.inr ⟨r, hm, rfl⟩)

theorem filterListedRepos_first_rejected (x : Int) (l1 : List RawRepo) :
    ∀ (seen : List Int) (r0 : RawRepo) (l2 : List RawRepo),
      r0.id = x → (∀ r ∈ l1, r.id ≠ x) →
      (r0.fork = true ∨ starsBelowTwo r0 = true ∨ hasPermission r0 = false) →
      ∀ r ∈ (filterListedRepos seen (l1 ++ r0 :: l2)).1, r.id ≠ x := by
  induction l1 with
  | nil =>
    intro seen r0 l2 hid _ hrej r hr
    rw [List.nil_append, filterListedRepos] at hr
    have hblock : ∀ r' ∈ (filterListedRepos (insertId seen r0.id) l2).1, r'.id ≠ x := by
      intro r' hr' heq
      have := filterListedRepos_kept_not_seen l2 _ r' hr'
      exact this ((mem_insertId _ _ _).mpr (Or.inl (heq.trans hid.symm)))
    split_ifs at hr with h1 h2 h3 h4
    · exact hblock r hr
    · exact hblock r hr
    · exact hblock r hr
    · exfalso
      rcases hrej with hf | hs | hp
      · exact (by simpa [hf] using h2 : False)
      · exact (by simpa [hs] using h3 : False)
      · exact (by simpa [hp] using h4 : False)
    · exact hblock r hr
  | cons a l1' ih =>
    intro seen r0 l2 hid hfirst hrej r hr
    rw [List.cons_append, filterListedRepos] at hr
    split_ifs at hr with h1 h2 h3 h4
    · exact ih _ r0 l2 hid (fun r' h' => hfirst r' (List.mem_cons_of_mem _ h')) hrej r hr
    · exact ih _ r0 l2 hid (fun r' h' => hfirst r' (List.mem_cons_of_mem _ h')) hrej r hr
    · exact ih _ r0 l2 hid (fun r' h' => hfirst r' (List.mem_cons_of_mem _ h')) hrej r hr
    · rcases List.mem_cons.mp hr with rfl | hm
      · exact hfirst r (List.mem_cons_self _ _)
      · exact ih _ r0 l2 hid (fun r' h' => hfirst r' (List.mem_cons_of_mem _ h')) hrej r hm
    · exact ih _ r0 l2 hid (fun r' h' => hfirst r' (List.mem_cons_of_mem _ h')) hrej r hr

theorem filterListedRepos_append (a : List RawRepo) :
    ∀ (b : List RawRepo) (seen : List Int),
      filterListedRepos seen (a ++ b) =
        ((filterListedRepos seen a).1 ++
            (filterListedRepos (filterListedRepos seen a).2 b).1,
          (filterListedRepos (filterListedRepos seen a).2 b).2) := by
  induction a with
  | nil =>
    intro b seen
    rw [List.nil_append]
    rw [show filterListedRepos seen ([] : List RawRepo) = ([], seen) from rfl]
    rw [show (([], seen) : List RawRepo × List Int).1 ++ (filterListedRepos seen b).1 =
      (filterListedRepos seen b).1 from List.nil_append _]
  | cons r a' ih =>
    intro b seen
    rw [List.cons_append, filterListedRepos, filterListedRepos]
    split_ifs with h1 h2 h3 h4
    · exact ih b _
    · exact ih b _
    · exact ih b _
    · rw [ih b _]
      rfl
    · exact ih b _

theorem orgFlatten_foldl (ls : List (List RawRepo)) :
    ∀ (init : List RawRepo), ls.foldl (· ++ ·) init = init ++ ls.flatten := by
  induction ls with
  | nil => intro init; simp
  | cons a ls ih => intro init; simp [ih, List.flatten]

theorem mem_orgFlatten (ls : List (List RawRepo)) (r : RawRepo) :
    r ∈ orgFlatten ls ↔ ∃ l ∈ ls, r ∈ l := by
  unfold orgFlatten
  rw [orgFlatten_foldl, List.nil_append, List.mem_flatten]

theorem aggregateParts_personal (prEdges : List PrEdge) (personalRepos : List RawRepo)
    (orgLists : List (List RawRepo)) :
    (aggregateParts prEdges personalRepos orgLists).1 =
      (filterListedRepos (filterListedRepos (filterPrEdges [] prEdges).2
        (orgFlatten orgLists)).2 personalRepos).1.map getMappedRepo := rfl

theorem aggregateParts_org (prEdges : List PrEdge) (personalRepos : List RawRepo)
    (orgLists : List (List RawRepo)) :
    (aggregateParts prEdges personalRepos orgLists).2.1 =
      (filterListedRepos (filterPrEdges [] prEdges).2
        (orgFlatten orgLists)).1.map getMappedOrgRepo := rfl

theorem aggregateParts_pr (prEdges : List PrEdge) (personalRepos : List RawRepo)
    (orgLists : List (List RawRepo)) :
    (aggregateParts prEdges personalRepos orgLists).2.2 =
      (filterPrEdges [] prEdges).1.map getMappedPrRepo := rfl

theorem aggregateRepos_eq (prEdges : List PrEdge) (personalRepos : List RawRepo)
    (orgLists : List (List RawRepo)) :
    aggregateRepos prEdges personalRepos orgLists =
      ((filterListedRepos (filterListedRepos (filterPrEdges [] prEdges).2
          (orgFlatten orgLists)).2 personalRepos).1.map getMappedRepo ++
        (filterListedRepos (filterPrEdges [] prEdges).2
          (orgFlatten orgLists)).1.map getMappedOrgRepo) ++
      (filterPrEdges [] prEdges).1.map getMappedPrRepo := rfl

/-- C5.  For every aggregation input the returned repository list has
pairwise-distinct `githubRepoId`s. -/
theorem aggregate_output_ids_nodup (prEdges : List PrEdge) (personalRepos : List RawRepo)
    (orgLists : List (List RawRepo)) :
    ((aggregateRepos prEdges personalRepos orgLists).map (fun r => r.githubRepoId)).Nodup := by
  have e1 : ∀ (l : List RawRepo),
      (l.map getMappedRepo).map (fun r : Repo => r.githubRepoId) = l.map (fun r => r.id) := by
    intro l; rw [List.map_map]; rfl
  have e2 : ∀ (l : List RawRepo),
      (l.map getMappedOrgRepo).map (fun r : Repo => r.githubRepoId) = l.map (fun r => r.id) := by
    intro l; rw [List.map_map]; rfl
  have e3 : ∀ (l : List PrEdge),
      (l.map getMappedPrRepo).map (fun r : Repo => r.githubRepoId) = l.map prRepoId := by
    intro l; rw [List.map_map]; rfl
  rw [aggregateRepos_eq, List.map_append, List.map_append, e1, e2, e3]
  have hper : ∀ x : Int,
      x ∈ (filterListedRepos (filterListedRepos (filterPrEdges [] prEdges).2
        (orgFlatten orgLists)).2 personalRepos).1.map (fun r => r.id) →
      x ∉ (filterListedRepos (filterPrEdges [] prEdges).2 (orgFlatten orgLists)).2 := by
    intro x hx
    obtain ⟨r, hr, rfl⟩ := List.mem_map.mp hx
    exact filterListedRepos_kept_not_seen _ _ r hr
  have horgIn : ∀ x : Int,
      x ∈ (filterListedRepos (filterPrEdges [] prEdges).2 (orgFlatten orgLists)).1.map
        (fun r => r.id) →
      x ∈ (filterListedRepos (filterPrEdges [] prEdges).2 (orgFlatten orgLists)).2 := by
    intro x hx
    obtain ⟨r, hr, rfl⟩ := List.mem_map.mp hx
    exact filterListedRepos_kept_in_seen _ _ r hr
  have horgNot : ∀ x : Int,
      x ∈ (filterListedRepos (filterPrEdges [] prEdges).2 (orgFlatten orgLists)).1.map
        (fun r => r.id) → x ∉ (filterPrEdges [] prEdges).2 := by
    intro x hx
    obtain ⟨r, hr, rfl⟩ := List.mem_map.mp hx
    exact filterListedRepos_kept_not_seen _ _ r hr
  have hprIn : ∀ x : Int, x ∈ (filterPrEdges [] prEdges).1.map prRepoId →
      x ∈ (filterPrEdges [] prEdges).2 := by
    intro x hx
    obtain ⟨e, he, rfl⟩ := List.mem_map.mp hx
    exact filterPrEdges_kept_in_seen _ _ e he
  have hsub12 : ∀ x : Int, x ∈ (filterPrEdges [] prEdges).2 →
      x ∈ (filterListedRepos (filterPrEdges [] prEdges).2 (orgFlatten orgLists)).2 :=
    fun x hx => (filterListedRepos_seen_mem _ _ _).mpr (Or.inl hx)
  rw [List.nodup_append]
  refine ⟨?_, filterPrEdges_kept_nodup prEdges [], ?_⟩
  · rw [List.nodup_append]
    refine ⟨filterListedRepos_kept_nodup _ _, filterListedRepos_kept_nodup _ _, ?_⟩
    intro x hx hy
    exact hper x hx (horgIn x hy)
  · intro x hx hy
    rcases List.mem_append.mp hx with hx1 | hx2
    · exact hper x hx1 (hsub12 x (hprIn x hy))
    · exact horgNot x hx2 (hprIn x hy)

/-- C8.  Every record of the aggregation output is the image of a
source record whose fork flag is false: forks are rejected by all three
source filters. -/
theorem aggregate_output_no_forks (prEdges : List PrEdge) (personalRepos : List RawRepo)
    (orgLists : List (List RawRepo)) :
    ∀ r ∈ aggregateRepos prEdges personalRepos orgLists,
      (∃ e ∈ prEdges, e.node.repository.isFork = false ∧ r = getMappedPrRepo e) ∨
      (∃ raw ∈ personalRepos, raw.fork = false ∧ r = getMappedRepo raw) ∨
      (∃ raw ∈ orgFlatten orgLists, raw.fork = false ∧ r = getMappedOrgRepo raw) := by
  intro r hr
  rw [aggregateRepos_eq] at hr
  rcases List.mem_append.mp hr with h12 | hprm
  · rcases List.mem_append.mp h12 with hperm | horgm
    · obtain ⟨raw, hraw, rfl⟩ := List.mem_map.mp hperm
      obtain ⟨hm, hf, -, -⟩ := filterListedRepos_kept_sub _ _ raw hraw
      exact Or.inr (Or.inl ⟨raw, hm, hf, rfl⟩)
    · obtain ⟨raw, hraw, rfl⟩ := List.mem_map.mp horgm
      obtain ⟨hm, hf, -, -⟩ := filterListedRepos_kept_sub _ _ raw hraw
      exact Or.inr (Or.inr ⟨raw, hm, hf, rfl⟩)
  · obtain ⟨e, he, rfl⟩ := List.mem_map.mp hprm
    obtain ⟨hm, hf⟩ := filterPrEdges_kept_sub _ _ e he
    exact Or.inl ⟨e, hm, hf, rfl⟩

/-- C6.  A non-fork PR-search record whose id was not produced by an
earlier non-fork PR record always reaches the output — no star-count or
permission hypothesis appears. -/
theorem pr_repos_exempt_from_filters (prEdges : List PrEdge) (personalRepos : List RawRepo)
    (orgLists : List (List RawRepo)) (l1 l2 : List PrEdge) (e : PrEdge)
    (hdecomp : prEdges = l1 ++ e :: l2)
    (hfork : e.node.repository.isFork = false)
    (hfresh : ∀ e' ∈ l1, e'.node.repository.isFork = false →
      e'.node.repository.databaseId ≠ e.node.repository.databaseId) :
    getMappedPrRepo e ∈ aggregateRepos prEdges personalRepos orgLists := by
  rw [aggregateRepos_eq]
  refine List.mem_append_right _ (List.mem_map_of_mem getMappedPrRepo ?_)
  rw [hdecomp]
  exact filterPrEdges_first_kept l1 [] e l2 hfork (List.not_mem_nil _) hfresh

/-- C9.  A repository id whose first personal/organization occurrence (in
the processing order: flattened organization listings, then the personal
listing) is rejected by the fork/star/permission checks — and which no PR
record carries — appears nowhere in the output: the id entered the dedup
set before the checks ran, so every later occurrence is dropped as a
duplicate. -/
theorem rejected_first_occurrence_never_output (prEdges : List PrEdge)
    (personalRepos : List RawRepo) (orgLists : List (List RawRepo))
    (l1 l2 : List RawRepo) (r0 : RawRepo) (x : Int)
    (hdecomp : orgFlatten orgLists ++ personalRepos = l1 ++ r0 :: l2)
    (hid : r0.id = x)
    (hfirst : ∀ r ∈ l1, r.id ≠ x)
    (hrej : r0.fork = true ∨ starsBelowTwo r0 = true ∨ hasPermission r0 = false)
    (hpr : ∀ e ∈ prEdges, e.node.repository.databaseId ≠ x) :
    ∀ r ∈ aggregateRepos prEdges personalRepos orgLists, r.githubRepoId ≠ x := by
  intro r hr
  rw [aggregateRepos_eq] at hr
  have hcomb : ∀ r' ∈ (filterListedRepos (filterPrEdges [] prEdges).2
      (orgFlatten orgLists ++ personalRepos)).1, r'.id ≠ x := by
    rw [hdecomp]
    exact filterListedRepos_first_rejected x l1 _ r0 l2 hid hfirst hrej
  rw [filterListedRepos_append] at hcomb
  rcases List.mem_append.mp hr with h12 | hprm
  · rcases List.mem_append.mp h12 with hperm | horgm
    · obtain ⟨raw, hraw, rfl⟩ := List.mem_map.mp hperm
      exact hcomb raw (List.mem_append_right _ hraw)
    · obtain ⟨raw, hraw, rfl⟩ := List.mem_map.mp horgm
      exact hcomb raw (List.mem_append_left _ hraw)
  · obtain ⟨e, he, rfl⟩ := List.mem_map.mp hprm
    obtain ⟨hm, -⟩ := filterPrEdges_kept_sub _ _ e he
    exact hpr e hm

/-- C2 (amended).  For an id carried by some organization-listing record
and by no PR record, neither the personal segment nor the PR segment of
the output can contain it: the organization pass runs before the personal
pass, so the organization record is the only candidate survivor and a
personal duplicate is always dropped. -/
theorem aggregate_duplicate_personal_org_resolution (prEdges : List PrEdge)
    (personalRepos : List RawRepo) (orgLists : List (List RawRepo)) (x : Int)
    (horg : ∃ raw ∈ orgFlatten orgLists, raw.id = x)
    (hpr : ∀ e ∈ prEdges, e.node.repository.databaseId ≠ x) :
    (∀ r ∈ (aggregateParts prEdges personalRepos orgLists).1, r.githubRepoId ≠ x) ∧
      (∀ r ∈ (aggregateParts prEdges personalRepos orgLists).2.2, r.githubRepoId ≠ x) := by
  constructor
  · intro r hr
    rw [aggregateParts_personal] at hr
    obtain ⟨raw, hraw, rfl⟩ := List.mem_map.mp hr
    intro heq
    have hidr : raw.id = x := heq
    have hnot := filterListedRepos_kept_not_seen _ _ raw hraw
    have hin : x ∈ (filterListedRepos (filterPrEdges [] prEdges).2 (orgFlatten orgLists)).2 :=
      (filterListedRepos_seen_mem _ _ _).mpr (Or.inr horg)
    exact hnot (hidr.symm ▸ hin)
  · intro r hr
    rw [aggregateParts_pr] at hr
    obtain ⟨e, he, rfl⟩ := List.mem_map.mp hr
    obtain ⟨hm, -⟩ := filterPrEdges_kept_sub _ _ e he
    exact hpr e hm

/-- C2 (counterexample).  With id 7 in both the personal listing and an
organization listing (and no PR results), the aggregation keeps the
organization record and drops the personal one — the organization pass
runs first in the code — refuting the claimed [PR, personal, organization]
dedup priority. -/
theorem aggregate_personal_org_duplicate_cex :
    aggregateRepos [] [personalDupRepo] [[orgDupRepo]] = [getMappedOrgRepo orgDupRepo] ∧
      getMappedOrgRepo orgDupRepo ≠ getMappedRepo personalDupRepo :=
  ⟨by decide, by decide⟩

/-- C2 (witness to the amended theorem at the duplicate-id input). -/
theorem aggregate_duplicate_personal_org_resolution_witness :
    (∀ r ∈ (aggregateParts [] [personalDupRepo] [[orgDupRepo]]).1, r.githubRepoId ≠ 7) ∧
      (∀ r ∈ (aggregateParts [] [personalDupRepo] [[orgDupRepo]]).2.2, r.githubRepoId ≠ 7) :=
  aggregate_duplicate_personal_org_resolution [] [personalDupRepo] [[orgDupRepo]] 7
    ⟨orgDupRepo, by decide, by decide⟩ (fun e he => absurd he (List.not_mem_nil e))

/-- C6 (witness): a 0-star, READ-only, non-fork PR repo reaches the output. -/
theorem pr_repos_exempt_witness :
    getMappedPrRepo readOnlyPrEdge ∈ aggregateRepos [readOnlyPrEdge] [] [] :=
  pr_repos_exempt_from_filters [readOnlyPrEdge] [] [] [] [] readOnlyPrEdge rfl rfl
    (fun e' h' => absurd h' (List.not_mem_nil e'))

/-- C9 (witness): id 5 is rejected at its organization occurrence (a fork)
and the later filter-passing personal occurrence still never surfaces:
id 5 occurs zero times among the output ids. -/
theorem rejected_first_occurrence_witness :
    ((aggregateRepos [] [passingPersonalRepo] [[forkOrgRepo]]).map
      (fun r => r.githubRepoId)).count 5 = 0 := by
  have h := rejected_first_occurrence_never_output [] [passingPersonalRepo] [[forkOrgRepo]]
    [] [passingPersonalRepo] forkOrgRepo 5 (by decide) rfl
    (fun r hr => absurd hr (List.not_mem_nil r)) (Or.inl rfl)
    (fun e he => absurd he (List.not_mem_nil e))
  refine List.count_eq_zero.mpr (fun hmem => ?_)
  obtain ⟨r, hr, heq⟩ := List.mem_map.mp hmem
  exact h r hr heq

/-- C8 (witness): the surviving organization record of a one-repo input is
certified to come from a non-fork source record. -/
theorem aggregate_output_no_forks_witness :
    (∃ e ∈ ([] : List PrEdge), e.node.repository.isFork = false ∧
        getMappedOrgRepo orgDupRepo = getMappedPrRepo e) ∨
      (∃ raw ∈ ([] : List RawRepo), raw.fork = false ∧
        getMappedOrgRepo orgDupRepo = getMappedRepo raw) ∨
      (∃ raw ∈ orgFlatten [[orgDupRepo]], raw.fork = false ∧
        getMappedOrgRepo orgDupRepo = getMappedOrgRepo raw) :=
  aggregate_output_no_forks [] [] [[orgDupRepo]] (getMappedOrgRepo orgDupRepo) (by decide)

/-! ## Pipeline lemmas -/

theorem uploadImagesLoop_all_ok (env : Env) (form : IntakeForm) (unixTime : Int) :
    ∀ (files : List ImageFile) (i : Nat),
      (∀ j, j < files.length → env.uploadOk (i + j) = true) →
      (uploadImagesLoop env form unixTime files i).2.2 = true := by
  intro files
  induction files with
  | nil => intro i _; rfl
  | cons f rest ih =>
    intro i h
    have h0 : env.uploadOk i = true := by
      have := h 0 (by simp)
      simpa using this
    rw [uploadImagesLoop, if_pos h0]
    exact ih (i + 1) (fun j hj => by
      have h2 : i + 1 + j = i + (j + 1) := by omega
      rw [h2]
      exact h (j + 1) (by simpa using Nat.succ_lt_succ hj))

theorem uploadImagesLoop_first_fail (env : Env) (form : IntakeForm) (unixTime : Int) :
    ∀ (files : List ImageFile) (i k : Nat), k < files.length →
      (∀ j, j < k → env.uploadOk (i + j) = true) → env.uploadOk (i + k) = false →
      (uploadImagesLoop env form unixTime files i).1 = List.range' i (k + 1) ∧
        (uploadImagesLoop env form unixTime files i).2.2 = false := by
  intro files
  induction files with
  | nil => intro i k hk _ _; exact absurd hk (by simp)
  | cons f rest ih =>
    intro i k hk hbef hfail
    cases k with
    | zero =>
      have h0 : env.uploadOk i = false := by simpa using hfail
      rw [uploadImagesLoop, if_neg (by simp [h0])]
      exact ⟨by simp [List.range'_one], rfl⟩
    | succ kp =>
      have h0 : env.uploadOk i = true := by
        have := hbef 0 (Nat.succ_pos kp)
        simpa using this
      rw [uploadImagesLoop, if_pos h0]
      have hrec := ih (i + 1) kp (by simpa using Nat.lt_of_succ_lt_succ hk)
        (fun j hj => by
          have h2 : i + 1 + j = i + (j + 1) := by omega
          rw [h2]
          exact hbef (j + 1) (Nat.succ_lt_succ hj))
        (by
          have h2 : i + 1 + kp = i + (kp + 1) := by omega
          rw [h2]
          exact hfail)
      constructor
      · show i :: (uploadImagesLoop env form unixTime rest (i + 1)).1 = _
        rw [hrec.1]
        exact (List.range'_succ i (kp + 1) 1).symm
      · exact hrec.2

/-- C7.  If the upload of image `k` fails after all earlier uploads
succeeded, the handler attempts exactly indices 0..k, answers the S3
failure 400, and the store still holds the stage-2 record — created
without an `images` attribute — untouched: no delete and no patch. -/
theorem upload_failure_aborts_and_preserves_record
    (env : Env) (form : IntakeForm) (files : List ImageFile) (unixTime : Int)
    (store0 : List IntakeRecord) (k : Nat)
    (hschema : env.schemaOk = true) (hrepos : env.reposSchemaOk = true)
    (himg : env.imageSchemaOk = true) (hput : env.putItemOk = true)
    (hk : k < files.length)
    (hbefore : ∀ j, j < k → env.uploadOk j = true)
    (hfail : env.uploadOk k = false) :
    (intakeFormHandler env form files unixTime store0).1 =
        ApiResult.failure "Failed to submit intake form assets to S3" ∧
      (intakeFormHandler env form files unixTime store0).2.uploadAttempts =
        List.range (k + 1) ∧
      (intakeFormHandler env form files unixTime store0).2.store =
        putRecord store0 (createIntakeFormDocForDynamo form unixTime) ∧
      (createIntakeFormDocForDynamo form unixTime).images = none ∧
      (intakeFormHandler env form files unixTime store0).2.emailsSent = [] := by
  have hloop := uploadImagesLoop_first_fail env form unixTime files 0 k hk
    (fun j hj => by simpa using hbefore j hj) (by simpa using hfail)
  have hpos : files.length > 0 := Nat.lt_of_le_of_lt (Nat.zero_le k) hk
  simp only [intakeFormHandler, hschema, hrepos, himg, hput, Bool.not_true,
    Bool.false_eq_true, if_false, hpos, if_true, hloop.2, Bool.not_false]
  refine ⟨by trivial, ?_, by trivial, by trivial, by trivial⟩
  rw [hloop.1, List.range_eq_range']

/-- C4 (amended).  When every stage up to the persist (and the uploads and
patch, if any files are present) succeeds but the queue-number scan fails,
the handler still answers 200 with an undefined `queueNumber` — but the
scan and both emails share one `try` block, so no notification is
dispatched. -/
theorem queue_failure_pipeline_behavior
    (env : Env) (form : IntakeForm) (files : List ImageFile) (unixTime : Int)
    (store0 : List IntakeRecord)
    (hschema : env.schemaOk = true) (hrepos : env.reposSchemaOk = true)
    (himg : env.imageSchemaOk = true) (hput : env.putItemOk = true)
    (hupl : ∀ j, j < files.length → env.uploadOk j = true)
    (hupd : env.updateItemOk = true)
    (hscan : env.scanOk = false) :
    (intakeFormHandler env form files unixTime store0).1 =
        ApiResult.success none "Successfully submitted intake form" ∧
      (intakeFormHandler env form files unixTime store0).2.emailsSent = [] := by
  cases files with
  | nil =>
    simp [intakeFormHandler, hschema, hrepos, himg, hput, finishPipeline, hscan]
  | cons f rest =>
    have hloop := uploadImagesLoop_all_ok env form unixTime (f :: rest) 0
      (fun j hj => by simpa using hupl j hj)
    simp [intakeFormHandler, hschema, hrepos, himg, hput, hloop, hupd, finishPipeline, hscan]

/-- C4 (counterexample).  With the queue scan failing after a successful
persist, the request does answer 200 with an undefined queue number, but
no email is dispatched — whereas the same request with a healthy scan
dispatches both — refuting "notification dispatch still runs". -/
theorem queue_failure_skips_emails_cex :
    (intakeFormHandler env4 cForm [] 100 []).1 =
        ApiResult.success none "Successfully submitted intake form" ∧
      (intakeFormHandler env4 cForm [] 100 []).2.emailsSent = [] ∧
      (intakeFormHandler envAll cForm [] 100 []).2.emailsSent =
        ["confirmation", "internal"] :=
  ⟨by decide, by decide, by decide⟩

/-- C4 (witness to the amended theorem at the concrete failing-scan input). -/
theorem queue_failure_pipeline_witness :
    (intakeFormHandler env4 cForm [] 100 []).1 =
        ApiResult.success none "Successfully submitted intake form" ∧
      (intakeFormHandler env4 cForm [] 100 []).2.emailsSent = [] :=
  queue_failure_pipeline_behavior env4 cForm [] 100 [] rfl rfl rfl rfl
    (fun j hj => absurd hj (by simp)) rfl rfl

/-- C7 (witness): four attachments, uploads 0 and 1 succeed, upload 2
fails; indices 3 is never attempted and the record stays imageless. -/
theorem upload_failure_witness :
    (intakeFormHandler env7 cForm [imgFile, imgFile, imgFile, imgFile] 100 []).1 =
        ApiResult.failure "Failed to submit intake form assets to S3" ∧
      (intakeFormHandler env7 cForm [imgFile, imgFile, imgFile, imgFile] 100
        []).2.uploadAttempts = List.range (2 + 1) ∧
      (intakeFormHandler env7 cForm [imgFile, imgFile, imgFile, imgFile] 100 []).2.store =
        putRecord [] (createIntakeFormDocForDynamo cForm 100) ∧
      (createIntakeFormDocForDynamo cForm 100).images = none ∧
      (intakeFormHandler env7 cForm [imgFile, imgFile, imgFile, imgFile] 100
        []).2.emailsSent = [] :=
  upload_failure_aborts_and_preserves_record env7 cForm [imgFile, imgFile, imgFile, imgFile]
    100 [] 2 rfl rfl rfl rfl (by decide) (fun j hj => decide_eq_true hj) (by decide)
